import Mathlib

/-!
Verification of the chess rules engine in `chess_pygame.py`.

The board is embedded as a function grid `Int → Int → Option Piece`;
`getSq` guards every read with the same bounds test as the source's
`inside`, and `setSq` is pointwise update (the source always writes
in-range indices).  Python code that would raise on a missing piece
(`make_move`, `_make_move_no_checks` reading `p.kind` of `None`) is
embedded with an `Option Board` result.  `random.choice` is modelled by
an index parameter `pick`: the element at `pick % length` is returned,
so the theorems quantify over every element the RNG could pick.
-/

namespace Chess

inductive Color where
  | white
  | black
deriving DecidableEq

inductive Kind where
  | K
  | Q
  | R
  | B
  | N
  | P
deriving DecidableEq

structure Piece where
  color : Color
  kind : Kind
deriving DecidableEq

abbrev Square := Int × Int

abbrev Move := Square × Square

abbrev Grid := Int → Int → Option Piece

/-- Source `Board.inside`: `0 <= r < 8 and 0 <= c < 8`. -/
def inside (r c : Int) : Bool :=
  decide (0 ≤ r ∧ r < 8 ∧ 0 ≤ c ∧ c < 8)

/-- Read `board[r][c]`; the source only indexes after an `inside` check,
so out-of-range reads yield `none`. -/
def getSq (g : Grid) (r c : Int) : Option Piece :=
  if inside r c then g r c else none

/-- Write `board[r][c] = v` as pointwise function update. -/
def setSq (g : Grid) (r c : Int) (v : Option Piece) : Grid :=
  fun r' c' => if r' = r ∧ c' = c then v else g r' c'

def emptyGrid : Grid := fun _ _ => none

/-- Board state: grid, `to_move`, `halfmove_clock`, `fullmove_number`. -/
structure Board where
  board : Grid
  to_move : Color
  halfmove_clock : Nat
  fullmove_number : Nat

/-- Source `Board.clone`: rebuilds every piece as `Piece(p.color, p.kind)`
and copies the scalar fields. -/
def clone (b : Board) : Board :=
  { board := fun r c => (b.board r c).map (fun p => ⟨p.color, p.kind⟩)
    to_move := b.to_move
    halfmove_clock := b.halfmove_clock
    fullmove_number := b.fullmove_number }

/-- Back-rank order `['R','N','B','Q','K','B','N','R']`. -/
def backRankOrder : List Kind :=
  [Kind.R, Kind.N, Kind.B, Kind.Q, Kind.K, Kind.B, Kind.N, Kind.R]

/-- Source `Board.place_starting_position`: pawns on rows 6 (White) and 1
(Black), the back-rank order on rows 7 (White) and 0 (Black). -/
def place_starting_position : Grid :=
  let g1 := (List.range 8).foldl
    (fun g c =>
      setSq (setSq g 6 (c : Int) (some ⟨Color.white, Kind.P⟩))
        1 (c : Int) (some ⟨Color.black, Kind.P⟩))
    emptyGrid
  backRankOrder.enum.foldl
    (fun g ck =>
      setSq (setSq g 7 (ck.1 : Int) (some ⟨Color.white, ck.2⟩))
        0 (ck.1 : Int) (some ⟨Color.black, ck.2⟩))
    g1

/-- Source `Board.__init__`: starting position, White to move, clocks 0/1. -/
def initialBoard : Board :=
  { board := place_starting_position
    to_move := Color.white
    halfmove_clock := 0
    fullmove_number := 1 }

/-- Knight offsets, in source order. -/
def knightOffsets : List (Int × Int) :=
  [(2,1),(2,-1),(-2,1),(-2,-1),(1,2),(1,-2),(-1,2),(-1,-2)]

/-- King offsets: the source's nested `dr`/`dc` loops skipping `(0,0)`. -/
def kingOffsets : List (Int × Int) :=
  [(-1,-1),(-1,0),(-1,1),(0,-1),(0,1),(1,-1),(1,0),(1,1)]

def diagDirs : List (Int × Int) := [(1,1),(1,-1),(-1,1),(-1,-1)]

def straightDirs : List (Int × Int) := [(1,0),(-1,0),(0,1),(0,-1)]

/-- First piece met walking from `(r,c)` in direction `(dr,dc)`: the
source's `while self.inside(rr cc)` ray walk; 8 steps of fuel cover any
ray that starts inside or one step outside the board. -/
def rayFirst (g : Grid) (r c dr dc : Int) : Nat → Option Piece
  | 0 => none
  | Nat.succ fuel =>
    if inside (r + dr) (c + dc) then
      match getSq g (r + dr) (c + dc) with
      | some p => some p
      | none => rayFirst g (r + dr) (c + dc) dr dc fuel
    else none

/-- Source `Board.king_position`: row-major scan for the king, sentinel
`(-1, -1)` when absent. -/
def king_position (b : Board) (color : Color) : Square :=
  ((List.range 8).findSome? (fun r =>
    (List.range 8).findSome? (fun c =>
      match getSq b.board (r : Int) (c : Int) with
      | some p =>
        if p.color = color ∧ p.kind = Kind.K then some ((r : Int), (c : Int))
        else none
      | none => none))).getD (-1, -1)

/-- Pawn forward direction `dir = -1 if color == WHITE else 1`, the
local computed both in the attack check and in pawn move generation. -/
def pawnDir (color : Color) : Int :=
  if color = Color.white then -1 else 1

/-- Pawn `start_row = 6 if color == WHITE else 1`. -/
def pawnStartRow (color : Color) : Int :=
  if color = Color.white then 6 else 1

/-- Source `Board.is_square_attacked_by`: knight, pawn, king and the two
sliding patterns, any one sufficing.  Note the pawn clause probes
`(r + dir, c ± 1)` with `dir = -1` for a White attacker, exactly as the
source does. -/
def is_square_attacked_by (b : Board) (r c : Int) (attacker_color : Color) : Bool :=
  (knightOffsets.any fun d =>
    match getSq b.board (r + d.1) (c + d.2) with
    | some p => decide (p.color = attacker_color ∧ p.kind = Kind.N)
    | none => false) ||
  ([(-1 : Int), 1].any fun dc =>
     match getSq b.board (r + pawnDir attacker_color) (c + dc) with
     | some p => decide (p.color = attacker_color ∧ p.kind = Kind.P)
     | none => false) ||
  (kingOffsets.any fun d =>
    match getSq b.board (r + d.1) (c + d.2) with
    | some p => decide (p.color = attacker_color ∧ p.kind = Kind.K)
    | none => false) ||
  (diagDirs.any fun d =>
    match rayFirst b.board r c d.1 d.2 8 with
    | some p => decide (p.color = attacker_color ∧ (p.kind = Kind.B ∨ p.kind = Kind.Q))
    | none => false) ||
  (straightDirs.any fun d =>
    match rayFirst b.board r c d.1 d.2 8 with
    | some p => decide (p.color = attacker_color ∧ (p.kind = Kind.R ∨ p.kind = Kind.Q))
    | none => false)

/-- Source `Board.is_in_check`: sentinel king row `-1` reports not in
check; otherwise asks `is_square_attacked_by` for the opponent. -/
def is_in_check (b : Board) (color : Color) : Bool :=
  let kp := king_position b color
  if kp.1 = -1 then false
  else is_square_attacked_by b kp.1 kp.2
    (if color = Color.black then Color.white else Color.black)

/-- Sliding-move ray of source `generate_pseudo_legal_moves_from`: each
empty square is a destination and the walk continues; an enemy piece is
a final destination; a friendly piece ends the ray. -/
def slideRay (g : Grid) (color : Color) (src : Square) (r c dr dc : Int) :
    Nat → List Move
  | 0 => []
  | Nat.succ fuel =>
    if inside (r + dr) (c + dc) then
      match getSq g (r + dr) (c + dc) with
      | none =>
        (src, (r + dr, c + dc)) ::
          slideRay g color src (r + dr) (c + dc) dr dc fuel
      | some t =>
        if t.color ≠ color then [(src, (r + dr, c + dc))] else []
    else []

/-- Pawn branch of `generate_pseudo_legal_moves_from`: single push onto
an empty square, double push from the start row through empty squares,
and the two diagonal captures of enemy pieces. -/
def pawnMoves (b : Board) (p : Piece) (r c : Int) : List Move :=
  (if inside (r + pawnDir p.color) c && (getSq b.board (r + pawnDir p.color) c).isNone then
      ((r, c), (r + pawnDir p.color, c)) ::
        (if decide (r = pawnStartRow p.color) &&
            (getSq b.board (r + 2 * pawnDir p.color) c).isNone then
          [((r, c), (r + 2 * pawnDir p.color, c))]
        else [])
    else []) ++
  [(-1 : Int), 1].filterMap (fun dc =>
    match getSq b.board (r + pawnDir p.color) (c + dc) with
    | some t =>
      if t.color ≠ p.color then some ((r, c), (r + pawnDir p.color, c + dc))
      else none
    | none => none)

/-- Knight and king branches of `generate_pseudo_legal_moves_from`: each
in-range offset square that is empty or enemy-occupied. -/
def leaperMoves (b : Board) (p : Piece) (r c : Int) (offs : List (Int × Int)) :
    List Move :=
  offs.filterMap fun d =>
    match getSq b.board (r + d.1) (c + d.2) with
    | none =>
      if inside (r + d.1) (c + d.2) then some ((r, c), (r + d.1, c + d.2))
      else none
    | some t =>
      if t.color ≠ p.color then some ((r, c), (r + d.1, c + d.2)) else none

/-- Source `Board.generate_pseudo_legal_moves_from`: geometry-only moves
for the piece on `(r,c)`, empty list for an empty square.  Queens get
the diagonal directions first, matching the source's list building. -/
def generate_pseudo_legal_moves_from (b : Board) (r c : Int) : List Move :=
  match getSq b.board r c with
  | none => []
  | some p =>
    match p.kind with
    | Kind.P => pawnMoves b p r c
    | Kind.N => leaperMoves b p r c knightOffsets
    | Kind.B =>
      diagDirs.flatMap fun d => slideRay b.board p.color (r, c) r c d.1 d.2 8
    | Kind.R =>
      straightDirs.flatMap fun d => slideRay b.board p.color (r, c) r c d.1 d.2 8
    | Kind.Q =>
      (diagDirs ++ straightDirs).flatMap fun d =>
        slideRay b.board p.color (r, c) r c d.1 d.2 8
    | Kind.K => leaperMoves b p r c kingOffsets

/-- Source `Board._make_move_no_checks`: clear the source square, place a
new Queen on promotion (pawn reaching row 0 or 7), else relocate the
piece.  `none` embeds the AttributeError the source would raise on an
empty source square. -/
def _make_move_no_checks (b : Board) (m : Move) : Option Board :=
  match getSq b.board m.1.1 m.1.2 with
  | none => none
  | some p =>
    let g1 := setSq b.board m.1.1 m.1.2 none
    some { b with board :=
      (if p.kind = Kind.P ∧ (m.2.1 = 0 ∨ m.2.1 = 7) then
        setSq g1 m.2.1 m.2.2 (some ⟨p.color, Kind.Q⟩)
      else
        setSq g1 m.2.1 m.2.2 (some p)) }

/-- Source `Board.is_legal_move`: reject an empty or wrong-color source,
otherwise clone, apply the move unchecked and test the mover's check. -/
def is_legal_move (b : Board) (m : Move) (color : Color) : Bool :=
  match getSq b.board m.1.1 m.1.2 with
  | none => false
  | some p =>
    if p.color ≠ color then false
    else
      match _make_move_no_checks (clone b) m with
      | none => false
      | some b2 => !(is_in_check b2 color)

/-- Source `Board.generate_legal_moves`: row-major scan of the mover's
pieces, pseudo-legal moves filtered by `is_legal_move`. -/
def generate_legal_moves (b : Board) (color : Color) : List Move :=
  (List.range 8).flatMap fun r =>
    (List.range 8).flatMap fun c =>
      match getSq b.board (r : Int) (c : Int) with
      | some p =>
        if p.color = color then
          (generate_pseudo_legal_moves_from b (r : Int) (c : Int)).filter
            (fun m => is_legal_move b m color)
        else []
      | none => []

/-- Aggregation loop of `generate_legal_moves` without the legality
filter: the spec's `pseudo_legal_for_color`. -/
def generate_pseudo_legal_moves_color (b : Board) (color : Color) : List Move :=
  (List.range 8).flatMap fun r =>
    (List.range 8).flatMap fun c =>
      match getSq b.board (r : Int) (c : Int) with
      | some p =>
        if p.color = color then generate_pseudo_legal_moves_from b (r : Int) (c : Int)
        else []
      | none => []

/-- Source `Board.make_move`: capture `moving`/`captured` before the
unchecked application, then update clocks and toggle the turn.  `none`
embeds the AttributeError raised when the source square is empty. -/
def make_move (b : Board) (m : Move) : Option Board :=
  let moving := getSq b.board m.1.1 m.1.2
  let captured := getSq b.board m.2.1 m.2.2
  match moving with
  | none => none
  | some p =>
    match _make_move_no_checks b m with
    | none => none
    | some b1 =>
      some { b1 with
        halfmove_clock :=
          if p.kind = Kind.P ∨ captured.isSome then 0 else b.halfmove_clock + 1
        fullmove_number :=
          if b.to_move = Color.black then b.fullmove_number + 1 else b.fullmove_number
        to_move :=
          if b.to_move = Color.black then Color.white else Color.black }

/-- Material table `MATERIAL_VALUES`; the dict lookup's default `0` is
unreachable since every kind is listed. -/
def material : Kind → Nat
  | Kind.K => 0
  | Kind.Q => 9
  | Kind.R => 5
  | Kind.B => 3
  | Kind.N => 3
  | Kind.P => 1

/-- One iteration of the capture-preference loop of `choose_ai_move`:
state is `(best_capture_value, best_captures)`, started at `(-1, [])`. -/
def capture_step (b : Board) (st : Int × List Move) (m : Move) : Int × List Move :=
  match getSq b.board m.2.1 m.2.2 with
  | some t =>
    if t.color = Color.white then
      let val : Int := (material t.kind : Int)
      if val > st.1 then (val, [m])
      else if val = st.1 then (st.1, st.2 ++ [m])
      else st
    else st
  | none => st

/-- Source `choose_ai_move`: `none` on an empty legal-move list, else a
random best capture if any capture exists, else a random legal move.
`random.choice(seq)` is modelled as `seq[pick % len(seq)]` for an
arbitrary RNG draw `pick`. -/
def choose_ai_move (b : Board) (pick : Nat) : Option Move :=
  let moves := generate_legal_moves b Color.black
  if moves.isEmpty then none
  else
    let best_captures := (moves.foldl (capture_step b) (-1, [])).2
    if best_captures.isEmpty then
      some (moves.getD (pick % moves.length) ((0, 0), (0, 0)))
    else
      some (best_captures.getD (pick % best_captures.length) ((0, 0), (0, 0)))

/-- No king of the given color anywhere on the board (Prop form). -/
def NoKing (b : Board) (color : Color) : Prop :=
  ∀ r c : Int, ∀ p : Piece, getSq b.board r c = some p →
    ¬(p.color = color ∧ p.kind = Kind.K)

/-- No king of the given color anywhere on the board, as a decidable
scan over the 64 squares. -/
def has_no_king (b : Board) (color : Color) : Bool :=
  (List.range 8).all fun r =>
    (List.range 8).all fun c =>
      match getSq b.board (r : Int) (c : Int) with
      | some p => !(decide (p.color = color ∧ p.kind = Kind.K))
      | none => true

/-- Board with a single White pawn on e2, i.e. square `(6, 4)`. -/
def pawnBugBoard : Board :=
  { board := setSq emptyGrid 6 4 (some ⟨Color.white, Kind.P⟩)
    to_move := Color.white
    halfmove_clock := 0
    fullmove_number := 1 }

/-- Board with a single White pawn one step from promotion on `(1, 4)`. -/
def promoBoard : Board :=
  { board := setSq emptyGrid 1 4 (some ⟨Color.white, Kind.P⟩)
    to_move := Color.white
    halfmove_clock := 0
    fullmove_number := 1 }

/-- Stalemate test position: White King a1 `(7,0)`, Black King c2
`(6,2)`, Black Queen b3 `(5,1)`, White to move. -/
def stalemateBoard : Board :=
  { board :=
      setSq (setSq (setSq emptyGrid 7 0 (some ⟨Color.white, Kind.K⟩))
        6 2 (some ⟨Color.black, Kind.K⟩)) 5 1 (some ⟨Color.black, Kind.Q⟩)
    to_move := Color.white
    halfmove_clock := 0
    fullmove_number := 1 }

/-! Helper lemmas. -/

theorem getSq_setSq (g : Grid) (a b : Int) (v : Option Piece) (r c : Int) :
    getSq (setSq g a b v) r c =
      if r = a ∧ c = b then (if inside r c then v else none) else getSq g r c := by
  by_cases h1 : r = a ∧ c = b <;> by_cases h2 : inside r c = true <;>
    simp [getSq, setSq, h1, h2]

theorem getSq_clone (b : Board) (r c : Int) :
    getSq (clone b).board r c = getSq b.board r c := by
  unfold clone getSq
  cases hb : b.board r c <;> simp [hb]

theorem noKing_of_has_no_king {b : Board} {color : Color}
    (h : has_no_king b color = true) : NoKing b color := by
  intro r c p hp
  have hin : inside r c = true := by
    by_contra hi
    rw [getSq, if_neg hi] at hp
    exact Option.noConfusion hp
  have hb : (0 ≤ r ∧ r < 8 ∧ 0 ≤ c ∧ c < 8) := of_decide_eq_true hin
  have hr : ((r.toNat : Int)) = r := Int.toNat_of_nonneg hb.1
  have hc : ((c.toNat : Int)) = c := Int.toNat_of_nonneg hb.2.2.1
  have hrm : r.toNat ∈ List.range 8 := List.mem_range.mpr (by omega)
  have hcm : c.toNat ∈ List.range 8 := List.mem_range.mpr (by omega)
  have h1 := List.all_eq_true.mp h r.toNat hrm
  have h2 := List.all_eq_true.mp h1 c.toNat hcm
  rw [hr, hc, hp] at h2
  rw [Bool.not_eq_true'] at h2
  exact of_decide_eq_false h2

theorem king_position_of_noKing {b : Board} {color : Color}
    (h : NoKing b color) : king_position b color = (-1, -1) := by
  unfold king_position
  have hnone : (List.range 8).findSome? (fun r =>
      (List.range 8).findSome? (fun c =>
        match getSq b.board (r : Int) (c : Int) with
        | some p =>
          if p.color = color ∧ p.kind = Kind.K then some ((r : Int), (c : Int))
          else none
        | none => none)) = none := by
    rw [List.findSome?_eq_none_iff]
    intro r _
    rw [List.findSome?_eq_none_iff]
    intro c _
    rcases hq : getSq b.board (r : Int) (c : Int) with _ | p
    · rfl
    · exact if_neg (h (r : Int) (c : Int) p hq)
  rw [hnone]
  rfl

theorem is_in_check_of_noKing {b : Board} {color : Color}
    (h : NoKing b color) : is_in_check b color = false := by
  simp [is_in_check, king_position_of_noKing h]

theorem noKing_clone {b : Board} {color : Color} (h : NoKing b color) :
    NoKing (clone b) color := by
  intro r c p hp
  rw [getSq_clone] at hp
  exact h r c p hp

theorem noKing_setSq_chain (g : Grid) (color : Color) (src dst : Square) (w : Piece)
    (hg : ∀ r c : Int, ∀ p : Piece, inside r c = true → g r c = some p →
      ¬(p.color = color ∧ p.kind = Kind.K))
    (hw : ¬(w.color = color ∧ w.kind = Kind.K)) :
    ∀ r c : Int, ∀ p : Piece,
      getSq (setSq (setSq g src.1 src.2 none) dst.1 dst.2 (some w)) r c = some p →
        ¬(p.color = color ∧ p.kind = Kind.K) := by
  intro r c p hp
  rw [getSq_setSq] at hp
  by_cases hd : r = dst.1 ∧ c = dst.2
  · rw [if_pos hd] at hp
    by_cases hi : inside r c = true
    · rw [if_pos hi] at hp
      injection hp with hp
      rw [← hp]
      exact hw
    · rw [if_neg hi] at hp
      exact Option.noConfusion hp
  · rw [if_neg hd, getSq_setSq] at hp
    by_cases hs : r = src.1 ∧ c = src.2
    · rw [if_pos hs] at hp
      by_cases hi : inside r c = true
      · rw [if_pos hi] at hp
        exact Option.noConfusion hp
      · rw [if_neg hi] at hp
        exact Option.noConfusion hp
    · rw [if_neg hs] at hp
      by_cases hi : inside r c = true
      · rw [getSq, if_pos hi] at hp
        exact hg r c p hi hp
      · rw [getSq, if_neg hi] at hp
        exact Option.noConfusion hp

theorem noKing_make_move {b : Board} {color : Color} {m : Move} {b2 : Board}
    (hnk : NoKing b color) (h : _make_move_no_checks b m = some b2) :
    NoKing b2 color := by
  unfold _make_move_no_checks at h
  rcases hs : getSq b.board m.1.1 m.1.2 with _ | q
  · rw [hs] at h
    exact Option.noConfusion h
  · rw [hs] at h
    injection h with h
    have hg : ∀ r c : Int, ∀ p : Piece, inside r c = true → b.board r c = some p →
        ¬(p.color = color ∧ p.kind = Kind.K) := by
      intro r c p hi hp
      exact hnk r c p (by rw [getSq, if_pos hi]; exact hp)
    intro r c p hp
    rw [← h] at hp
    by_cases promo : q.kind = Kind.P ∧ (m.2.1 = 0 ∨ m.2.1 = 7)
    · rw [if_pos promo] at hp
      exact noKing_setSq_chain b.board color m.1 m.2 ⟨q.color, Kind.Q⟩ hg
        (by rintro ⟨_, hk⟩; exact Kind.noConfusion hk) r c p hp
    · rw [if_neg promo] at hp
      exact noKing_setSq_chain b.board color m.1 m.2 q hg
        (hnk m.1.1 m.1.2 q hs) r c p hp

theorem slideRay_src (g : Grid) (col : Color) (src : Square) :
    ∀ (fuel : Nat) (r c dr dc : Int) (m : Move),
      m ∈ slideRay g col src r c dr dc fuel → m.1 = src := by
  intro fuel
  induction fuel with
  | zero =>
    intro r c dr dc m hm
    simp [slideRay] at hm
  | succ fuel ih =>
    intro r c dr dc m hm
    rw [slideRay] at hm
    by_cases hi : inside (r + dr) (c + dc) = true
    · rw [if_pos hi] at hm
      rcases hq : getSq g (r + dr) (c + dc) with _ | t <;> simp only [hq] at hm
      · rcases List.mem_cons.mp hm with he | hm2
        · rw [he]
        · exact ih (r + dr) (c + dc) dr dc m hm2
      · by_cases ht : t.color ≠ col
        · rw [if_pos ht] at hm
          simp at hm
          rw [hm]
        · rw [if_neg ht] at hm
          simp at hm
    · rw [if_neg hi] at hm
      simp at hm

theorem leaperMoves_src {b : Board} {p : Piece} {r c : Int}
    {offs : List (Int × Int)} {m : Move} (hm : m ∈ leaperMoves b p r c offs) :
    m.1 = (r, c) := by
  rcases List.mem_filterMap.mp hm with ⟨d, _, hd⟩
  rcases hq : getSq b.board (r + d.1) (c + d.2) with _ | t <;> simp only [hq] at hd
  · by_cases hi : inside (r + d.1) (c + d.2) = true
    · rw [if_pos hi] at hd
      injection hd with hd
      rw [← hd]
    · rw [if_neg hi] at hd
      exact Option.noConfusion hd
  · by_cases ht : t.color ≠ p.color
    · rw [if_pos ht] at hd
      injection hd with hd
      rw [← hd]
    · rw [if_neg ht] at hd
      exact Option.noConfusion hd

theorem pawnMoves_src {b : Board} {p : Piece} {r c : Int} {m : Move}
    (hm : m ∈ pawnMoves b p r c) : m.1 = (r, c) := by
  unfold pawnMoves at hm
  rcases List.mem_append.mp hm with h1 | h2
  · by_cases hc1 : (inside (r + pawnDir p.color) c &&
        (getSq b.board (r + pawnDir p.color) c).isNone) = true
    · rw [if_pos hc1] at h1
      rcases List.mem_cons.mp h1 with he | h1b
      · rw [he]
      · by_cases hc2 : (decide (r = pawnStartRow p.color) &&
            (getSq b.board (r + 2 * pawnDir p.color) c).isNone) = true
        · rw [if_pos hc2] at h1b
          simp at h1b
          rw [h1b]
        · rw [if_neg hc2] at h1b
          simp at h1b
    · rw [if_neg hc1] at h1
      simp at h1
  · rcases List.mem_filterMap.mp h2 with ⟨dc, _, hd⟩
    rcases hq : getSq b.board (r + pawnDir p.color) (c + dc) with _ | t <;>
      simp only [hq] at hd
    · exact Option.noConfusion hd
    · by_cases ht : t.color ≠ p.color
      · rw [if_pos ht] at hd
        injection hd with hd
        rw [← hd]
      · rw [if_neg ht] at hd
        exact Option.noConfusion hd

theorem pseudo_src {b : Board} {r c : Int} {m : Move}
    (hm : m ∈ generate_pseudo_legal_moves_from b r c) : m.1 = (r, c) := by
  unfold generate_pseudo_legal_moves_from at hm
  rcases hq : getSq b.board r c with _ | p <;> simp only [hq] at hm
  · simp at hm
  · cases hk : p.kind <;> simp only [hk] at hm
    case K => exact leaperMoves_src hm
    case Q =>
      rcases List.mem_flatMap.mp hm with ⟨d, _, hd⟩
      exact slideRay_src b.board p.color (r, c) 8 r c d.1 d.2 m hd
    case R =>
      rcases List.mem_flatMap.mp hm with ⟨d, _, hd⟩
      exact slideRay_src b.board p.color (r, c) 8 r c d.1 d.2 m hd
    case B =>
      rcases List.mem_flatMap.mp hm with ⟨d, _, hd⟩
      exact slideRay_src b.board p.color (r, c) 8 r c d.1 d.2 m hd
    case N => exact leaperMoves_src hm
    case P => exact pawnMoves_src hm

theorem mem_generate_legal {b : Board} {color : Color} {m : Move}
    (hm : m ∈ generate_legal_moves b color) : is_legal_move b m color = true := by
  unfold generate_legal_moves at hm
  rcases List.mem_flatMap.mp hm with ⟨r, _, hm⟩
  rcases List.mem_flatMap.mp hm with ⟨c, _, hm⟩
  rcases hq : getSq b.board (r : Int) (c : Int) with _ | p <;> simp only [hq] at hm
  · simp at hm
  · by_cases hpc : p.color = color
    · rw [if_pos hpc] at hm
      exact (List.mem_filter.mp hm).2
    · rw [if_neg hpc] at hm
      simp at hm

theorem legal_sound {b : Board} {m : Move} {color : Color}
    (h : is_legal_move b m color = true) :
    ∃ b2, _make_move_no_checks (clone b) m = some b2 ∧
      is_in_check b2 color = false := by
  unfold is_legal_move at h
  rcases hq : getSq b.board m.1.1 m.1.2 with _ | p <;> simp only [hq] at h
  · exact absurd h (by simp)
  · by_cases hpc : p.color ≠ color
    · rw [if_pos hpc] at h
      exact absurd h (by simp)
    · rw [if_neg hpc] at h
      rcases h2 : _make_move_no_checks (clone b) m with _ | b2 <;> simp only [h2] at h
      · exact absurd h (by simp)
      · exact ⟨b2, rfl, by simpa using h⟩

theorem is_legal_of {b : Board} {m : Move} {p : Piece} {color : Color} {b2 : Board}
    (hs : getSq b.board m.1.1 m.1.2 = some p) (hpc : p.color = color)
    (h2 : _make_move_no_checks (clone b) m = some b2)
    (h3 : is_in_check b2 color = false) : is_legal_move b m color = true := by
  unfold is_legal_move
  simp only [hs, h2, h3]
  simp [hpc]

theorem make_move_no_checks_clone_some {b : Board} {m : Move} {p : Piece}
    (hs : getSq b.board m.1.1 m.1.2 = some p) :
    ∃ b2, _make_move_no_checks (clone b) m = some b2 := by
  have hc : getSq (clone b).board m.1.1 m.1.2 = some p := by
    rw [getSq_clone]
    exact hs
  unfold _make_move_no_checks
  rw [hc]
  exact ⟨_, rfl⟩

theorem getD_mod_mem (l : List Move) (i : Nat) (d : Move) (h : l ≠ []) :
    l.getD (i % l.length) d ∈ l := by
  have hlen : 0 < l.length := List.length_pos.mpr h
  have hm : i % l.length < l.length := Nat.mod_lt _ hlen
  rw [List.getD_eq_getElem l d hm]
  exact List.getElem_mem hm

theorem capture_fold_sub (b : Board) :
    ∀ (l : List Move) (st : Int × List Move) (x : Move),
      x ∈ (l.foldl (capture_step b) st).2 → x ∈ st.2 ∨ x ∈ l := by
  intro l
  induction l with
  | nil =>
    intro st x hx
    exact Or.inl hx
  | cons a l ih =>
    intro st x hx
    rw [List.foldl_cons] at hx
    rcases ih (capture_step b st a) x hx with h | h
    · unfold capture_step at h
      rcases hq : getSq b.board a.2.1 a.2.2 with _ | t <;> simp only [hq] at h
      · exact Or.inl h
      · by_cases htc : t.color = Color.white
        · rw [if_pos htc] at h
          by_cases h1 : ((material t.kind : Int)) > st.1
          · rw [if_pos h1] at h
            simp at h
            exact Or.inr (by simp [h])
          · rw [if_neg h1] at h
            by_cases hv2 : ((material t.kind : Int)) = st.1
            · rw [if_pos hv2] at h
              rcases List.mem_append.mp h with h3 | h3
              · exact Or.inl h3
              · simp at h3
                exact Or.inr (by simp [h3])
            · rw [if_neg hv2] at h
              exact Or.inl h
        · rw [if_neg htc] at h
          exact Or.inl h
    · exact Or.inr (List.mem_cons_of_mem a h)

/-! Claim theorems. -/

/-- C1: the pawn clause of `is_square_attacked_by` is claimed to report
an attack exactly when a pawn of the attacking color sits at
`(r+1, c±1)` for White (resp. `(r-1, c±1)` for Black).  The code does
the opposite: with a lone White pawn on `(6,4)`, the squares `(5,3)`
and `(5,5)` — which that pawn attacks in chess, having the pawn at
`(r+1, c∓1)` — are reported unattacked, while `(7,3)` and `(7,5)` —
which it does not attack — are reported attacked.  This theorem
evaluates the code at those failing inputs. -/
theorem C1_pawn_attack_direction_inverted :
    is_square_attacked_by pawnBugBoard 5 3 Color.white = false ∧
    is_square_attacked_by pawnBugBoard 5 5 Color.white = false ∧
    is_square_attacked_by pawnBugBoard 7 3 Color.white = true ∧
    is_square_attacked_by pawnBugBoard 7 5 Color.white = true := by
  exact ⟨by decide, by decide, by decide, by decide⟩

/-- C2: every move returned by `generate_legal_moves b color`, applied
to a clone of `b` by the unchecked move primitive, yields a board on
which `is_in_check color` is false. -/
theorem C2_legal_moves_never_leave_own_check (b : Board) (color : Color) (m : Move)
    (hm : m ∈ generate_legal_moves b color) :
    ∃ b2, _make_move_no_checks (clone b) m = some b2 ∧
      is_in_check b2 color = false :=
  legal_sound (mem_generate_legal hm)

/-- Witness for C2 at the initial position and the pawn push e2-e3. -/
theorem C2_witness :
    ∃ b2, _make_move_no_checks (clone initialBoard) ((6, 4), (5, 4)) = some b2 ∧
      is_in_check b2 Color.white = false :=
  C2_legal_moves_never_leave_own_check initialBoard Color.white ((6, 4), (5, 4))
    (by decide)

/-- C3: `_make_move_no_checks` on an occupied source square puts a new
Queen of the mover's color on the destination exactly when the mover is
a pawn reaching row 0 or row 7, and otherwise relocates the original
piece unchanged. -/
theorem C3_auto_promotion_to_queen (b : Board) (m : Move) (p : Piece)
    (hs : getSq b.board m.1.1 m.1.2 = some p) (hd : inside m.2.1 m.2.2 = true) :
    ∃ b2, _make_move_no_checks b m = some b2 ∧
      ((p.kind = Kind.P ∧ (m.2.1 = 0 ∨ m.2.1 = 7)) →
        getSq b2.board m.2.1 m.2.2 = some ⟨p.color, Kind.Q⟩) ∧
      (¬(p.kind = Kind.P ∧ (m.2.1 = 0 ∨ m.2.1 = 7)) →
        getSq b2.board m.2.1 m.2.2 = some p) := by
  unfold _make_move_no_checks
  simp only [hs]
  refine ⟨_, rfl, ?_, ?_⟩
  · intro promo
    rw [if_pos promo]
    simp [getSq_setSq, hd]
  · intro promo
    rw [if_neg promo]
    simp [getSq_setSq, hd]

/-- Witness for C3: a White pawn on `(1,4)` moving to `(0,4)`. -/
theorem C3_witness :
    ∃ b2, _make_move_no_checks promoBoard ((1, 4), (0, 4)) = some b2 ∧
      (((Piece.mk Color.white Kind.P).kind = Kind.P ∧ ((0 : Int) = 0 ∨ (0 : Int) = 7)) →
        getSq b2.board 0 4 = some ⟨Color.white, Kind.Q⟩) ∧
      (¬((Piece.mk Color.white Kind.P).kind = Kind.P ∧ ((0 : Int) = 0 ∨ (0 : Int) = 7)) →
        getSq b2.board 0 4 = some ⟨Color.white, Kind.P⟩) :=
  C3_auto_promotion_to_queen promoBoard ((1, 4), (0, 4)) ⟨Color.white, Kind.P⟩
    (by decide) (by decide)

/-- C4: `make_move` on an occupied source square resets the half-move
clock to 0 when the mover is a pawn or the destination was occupied
before the move and increments it otherwise, increments the full-move
counter exactly when Black was to move, and toggles the side to move. -/
theorem C4_clock_and_turn_updates (b : Board) (m : Move) (p : Piece)
    (hs : getSq b.board m.1.1 m.1.2 = some p) :
    ∃ b2, make_move b m = some b2 ∧
      b2.halfmove_clock =
        (if p.kind = Kind.P ∨ (getSq b.board m.2.1 m.2.2).isSome then 0
         else b.halfmove_clock + 1) ∧
      b2.fullmove_number =
        (if b.to_move = Color.black then b.fullmove_number + 1
         else b.fullmove_number) ∧
      b2.to_move = (if b.to_move = Color.black then Color.white else Color.black) := by
  obtain ⟨b1, h1⟩ : ∃ b1, _make_move_no_checks b m = some b1 := by
    unfold _make_move_no_checks
    simp only [hs]
    exact ⟨_, rfl⟩
  unfold make_move
  simp only [hs, h1]
  exact ⟨_, rfl, rfl, rfl, rfl⟩

/-- Witness for C4: the double pawn push e2-e4 from the start. -/
theorem C4_witness :
    ∃ b2, make_move initialBoard ((6, 4), (4, 4)) = some b2 ∧
      b2.halfmove_clock =
        (if (Piece.mk Color.white Kind.P).kind = Kind.P ∨
            (getSq initialBoard.board 4 4).isSome then 0
         else initialBoard.halfmove_clock + 1) ∧
      b2.fullmove_number =
        (if initialBoard.to_move = Color.black then initialBoard.fullmove_number + 1
         else initialBoard.fullmove_number) ∧
      b2.to_move =
        (if initialBoard.to_move = Color.black then Color.white else Color.black) :=
  C4_clock_and_turn_updates initialBoard ((6, 4), (4, 4)) ⟨Color.white, Kind.P⟩
    (by decide)

/-- C5: `is_legal_move` returns false whenever the source square is
empty or holds a piece of a color other than the mover; being a pure
predicate it cannot alter the board or raise. -/
theorem C5_reject_empty_or_wrong_color (b : Board) (m : Move) (color : Color)
    (h : getSq b.board m.1.1 m.1.2 = none ∨
      ∃ p, getSq b.board m.1.1 m.1.2 = some p ∧ p.color ≠ color) :
    is_legal_move b m color = false := by
  unfold is_legal_move
  rcases h with h | ⟨p, hp, hpc⟩
  · simp only [h]
  · simp only [hp]
    rw [if_pos hpc]

/-- Witness for C5: moving from the empty square `(4,4)`. -/
theorem C5_witness : is_legal_move initialBoard ((4, 4), (3, 4)) Color.white = false :=
  C5_reject_empty_or_wrong_color initialBoard ((4, 4), (3, 4)) Color.white
    (Or.inl (by decide))

/-- C6: from the initial position White has exactly 20 pseudo-legal
moves and exactly 20 legal moves. -/
theorem C6_initial_position_20_moves :
    (generate_pseudo_legal_moves_color initialBoard Color.white).length = 20 ∧
    (generate_legal_moves initialBoard Color.white).length = 20 := by
  exact ⟨by decide, by decide⟩

/-- C7: with White King a1, Black King c2, Black Queen b3 and White to
move, White has no legal move and is not in check: stalemate. -/
theorem C7_stalemate_position :
    generate_legal_moves stalemateBoard Color.white = [] ∧
    is_in_check stalemateBoard Color.white = false := by
  exact ⟨by decide, by decide⟩

/-- C8: `choose_ai_move` returns `none` exactly when Black has no legal
move, and any move it can return (for any RNG draw) is one of Black's
legal moves on that board. -/
theorem C8_choose_ai_move_spec (b : Board) (pick : Nat) :
    (choose_ai_move b pick = none ↔ generate_legal_moves b Color.black = []) ∧
    ∀ m, choose_ai_move b pick = some m →
      m ∈ generate_legal_moves b Color.black := by
  by_cases he : (generate_legal_moves b Color.black).isEmpty = true
  · have h0 : choose_ai_move b pick = none := by
      unfold choose_ai_move
      simp [he]
    refine ⟨by rw [h0]; exact iff_of_true rfl (List.isEmpty_iff.mp he), ?_⟩
    intro m hm
    rw [h0] at hm
    exact Option.noConfusion hm
  · have hne : generate_legal_moves b Color.black ≠ [] := by
      intro h0
      exact he (by rw [h0]; rfl)
    have hsome : ∃ mv, choose_ai_move b pick = some mv ∧
        mv ∈ generate_legal_moves b Color.black := by
      unfold choose_ai_move
      rw [if_neg he]
      by_cases hbc : ((generate_legal_moves b Color.black).foldl
          (capture_step b) (-1, [])).2.isEmpty = true
      · rw [if_pos hbc]
        exact ⟨_, rfl, getD_mod_mem _ pick _ hne⟩
      · rw [if_neg hbc]
        have hbne : ((generate_legal_moves b Color.black).foldl
            (capture_step b) (-1, [])).2 ≠ [] := by
          intro h0
          exact hbc (by rw [h0]; rfl)
        refine ⟨_, rfl, ?_⟩
        rcases capture_fold_sub b (generate_legal_moves b Color.black) (-1, []) _
            (getD_mod_mem _ pick _ hbne) with h | h
        · exact absurd h (by simp)
        · exact h
    obtain ⟨mv, hmv, hmem⟩ := hsome
    refine ⟨by rw [hmv]; exact iff_of_false (by simp) hne, ?_⟩
    intro m hm
    rw [hmv] at hm
    injection hm with hm
    rw [← hm]
    exact hmem

/-- Witness for C8: from the initial position with RNG draw 0 the AI
picks the knight move `(0,1) → (2,2)`, a Black legal move. -/
theorem C8_witness :
    choose_ai_move initialBoard 0 = some ((0, 1), (2, 2)) ∧
    ((0, 1), (2, 2)) ∈ generate_legal_moves initialBoard Color.black :=
  ⟨by decide, (C8_choose_ai_move_spec initialBoard 0).2 ((0, 1), (2, 2)) (by decide)⟩

/-- C9: `clone` returns a board with identical contents square by
square and identical scalar fields; in this embedding boards are
immutable values, so no later operation on the clone can affect the
original. -/
theorem C9_clone_identical (b : Board) :
    (∀ r c : Int, getSq (clone b).board r c = getSq b.board r c) ∧
    (clone b).to_move = b.to_move ∧
    (clone b).halfmove_clock = b.halfmove_clock ∧
    (clone b).fullmove_number = b.fullmove_number :=
  ⟨fun r c => getSq_clone b r c, rfl, rfl, rfl⟩

/-- C10: on a board where a color has no king, `king_position` returns
the sentinel `(-1,-1)`, `is_in_check` returns false, and every
pseudo-legal move of that color passes the legality filter. -/
theorem C10_kingless_color_all_moves_legal (b : Board) (color : Color)
    (h : has_no_king b color = true) :
    king_position b color = (-1, -1) ∧ is_in_check b color = false ∧
      ∀ (r c : Int) (p : Piece), getSq b.board r c = some p → p.color = color →
        ∀ m ∈ generate_pseudo_legal_moves_from b r c,
          is_legal_move b m color = true := by
  have hnk := noKing_of_has_no_king h
  refine ⟨king_position_of_noKing hnk, is_in_check_of_noKing hnk, ?_⟩
  intro r c p hp hpc m hm
  have hsrc : m.1 = (r, c) := pseudo_src hm
  have hs : getSq b.board m.1.1 m.1.2 = some p := by
    rw [hsrc]
    exact hp
  obtain ⟨b2, h2⟩ := make_move_no_checks_clone_some hs
  have hnk2 : NoKing b2 color := noKing_make_move (noKing_clone hnk) h2
  exact is_legal_of hs hpc h2 (is_in_check_of_noKing hnk2)

/-- Witness for C10: the kingless board with one White pawn; its pawn
push `(6,4) → (5,4)` is accepted by the legality filter. -/
theorem C10_witness : is_legal_move pawnBugBoard ((6, 4), (5, 4)) Color.white = true :=
  (C10_kingless_color_all_moves_legal pawnBugBoard Color.white (by decide)).2.2 6 4
    ⟨Color.white, Kind.P⟩ (by decide) rfl ((6, 4), (5, 4)) (by decide)

end Chess
